import Mathlib

/-!
Shallow embedding of the move-selection core of the `chess_bot` repository:
the score normalization in `src/engine_wrapper.py` and the humanized
move-selection policy in `src/humanizer.py`.

Randomness is made explicit: every function of the source that consumes a
random draw takes that draw as an extra argument (the integer produced by
`int(np.random.normal(...))`, the unit draw of `random.uniform`, and the
index produced by `np.random.choice`).  Side effects (`time.sleep`) are
made explicit as data in the return value.
-/

namespace ChessBot

/-- An opaque move identifier (`chess.Move` in the source); only equality and
a stable textual encoding are used by the selection core. -/
structure Move where
  uci : String
deriving DecidableEq, Repr

/-- Embeds the dataclass `MoveEvaluation` of `src/engine_wrapper.py`:
a move with its centipawn score, mate flag and optional mate distance. -/
structure MoveEvaluation where
  move : Move
  score : Int
  is_mate : Bool := false
  mate_in : Option Int := none
deriving DecidableEq, Repr

/-- A raw engine score as consumed by `EngineWrapper._score_to_centipawns`
after `score.white()`: either a forced-mate distance or a centipawn value,
both expressed from White's (the fixed first player's) perspective. -/
inductive RawScore where
  | mate (m : Int)
  | cp (c : Int)
deriving DecidableEq, Repr

/-- Embeds `EngineWrapper._score_to_centipawns` (src/engine_wrapper.py,
lines 52-85).  `turnBlack` is `board.turn == chess.BLACK`.  Returns the
tuple `(centipawns, is_mate, mate_in)` exactly as the source builds it:
for a mate distance `m`, `cp = 10000 - m*100` when `m > 0` and
`cp = -10000 - m*100` otherwise, then `cp` is negated when Black is to
move; the returned `mate_in` is the unmodified `m`. -/
def score_to_centipawns (score : RawScore) (turnBlack : Bool) :
    Int × Bool × Option Int :=
  match score with
  | .mate mate_in =>
    let cp : Int := if 0 < mate_in then 10000 - mate_in * 100 else -10000 - mate_in * 100
    let cp := if turnBlack then -cp else cp
    (cp, true, some mate_in)
  | .cp c =>
    let cp := if turnBlack then -c else c
    (cp, false, none)

/-- The mate-distance encoding from the fixed first player's (White's)
perspective: the centipawn component of `score_to_centipawns` on a mate
score with White to move. -/
def encodeMate (m : Int) : Int :=
  (score_to_centipawns (.mate m) false).1

lemma encodeMate_of_pos (m : Int) (h : 0 < m) : encodeMate m = 10000 - m * 100 := by
  simp [encodeMate, score_to_centipawns, h]

lemma encodeMate_of_nonpos (m : Int) (h : ¬ 0 < m) : encodeMate m = -10000 - m * 100 := by
  simp [encodeMate, score_to_centipawns, h]

/-- Claim C1 (amended): for a mate distance `m ≠ 0`, the normalizer produces
`cp = 10000 - 100*m` when `m > 0` and `cp = -10000 - 100*m` when `m < 0`,
negates the `cp` when Black is to move, and in every case returns the
stored `mate_in` unchanged (still from the fixed first player's
perspective) — it is not negated for Black. -/
theorem score_to_centipawns_mate_spec (m : Int) (black : Bool) (hm : m ≠ 0) :
    (0 < m → score_to_centipawns (.mate m) black =
      ((if black then -(10000 - m * 100) else 10000 - m * 100), true, some m)) ∧
    (m < 0 → score_to_centipawns (.mate m) black =
      ((if black then -(-10000 - m * 100) else -10000 - m * 100), true, some m)) := by
  constructor
  · intro hpos
    simp [score_to_centipawns, hpos]
  · intro hneg
    have : ¬ 0 < m := by omega
    simp [score_to_centipawns, this]

/-- Witness for C1: evaluation at `m = 3` with Black to move. -/
theorem score_to_centipawns_mate_spec_witness :
    score_to_centipawns (.mate 3) true = (-9700, true, some 3) := by
  have h := (score_to_centipawns_mate_spec 3 true (by decide)).1 (by decide)
  simpa using h

/-- Counterexample for C1 as stated: with Black to move and a mate in 3 for
White, the returned `mate_in` is `some 3`, not the negated `some (-3)` the
claim requires for a mover-relative triple. -/
theorem score_to_centipawns_mate_in_not_negated :
    (score_to_centipawns (.mate 3) true).2.2 = some 3 ∧
    (score_to_centipawns (.mate 3) true).2.2 ≠ some (-3) := by
  decide

/-- Counterexample for C2 as stated: at the valid mate distance `m = 10` the
encoded value is exactly `9000`, whose absolute value does not exceed
`9000`. -/
theorem encodeMate_magnitude_fails_at_ten :
    encodeMate 10 = 9000 ∧ ¬ 9000 < (encodeMate 10).natAbs := by
  decide

/-- Claim C2 (amended): for mate distances of magnitude between 1 and 9,
the encoded value's sign matches the winner, a shorter same-sign mate
ranks strictly further from zero, the encoded magnitude exceeds 9000, and
a mate for the mover outranks every score of magnitude at most 9000 under
the ordinary integer order. -/
theorem encodeMate_props (m m' : Int)
    (h1 : 1 ≤ m.natAbs) (h9 : m.natAbs ≤ 9)
    (h1' : 1 ≤ m'.natAbs) (h9' : m'.natAbs ≤ 9) :
    (0 < m → 0 < encodeMate m) ∧
    (m < 0 → encodeMate m < 0) ∧
    (0 < m → 0 < m' → m.natAbs < m'.natAbs →
      (encodeMate m').natAbs < (encodeMate m).natAbs) ∧
    (m < 0 → m' < 0 → m.natAbs < m'.natAbs →
      (encodeMate m').natAbs < (encodeMate m).natAbs) ∧
    9000 < (encodeMate m).natAbs ∧
    (∀ c : Int, c.natAbs ≤ 9000 →
      (0 < m → c < encodeMate m) ∧ (m < 0 → encodeMate m < c)) := by
  rcases lt_trichotomy m 0 with hm | hm | hm
  · have hne : ¬ 0 < m := by omega
    have e := encodeMate_of_nonpos m hne
    refine ⟨by omega, by omega, ?_, ?_, by omega, ?_⟩
    · intro h _ _; omega
    · intro _ hm' habs
      have hne' : ¬ 0 < m' := by omega
      have e' := encodeMate_of_nonpos m' hne'
      omega
    · intro c hc
      exact ⟨by omega, fun _ => by omega⟩
  · omega
  · have e := encodeMate_of_pos m hm
    refine ⟨by omega, by omega, ?_, ?_, by omega, ?_⟩
    · intro _ hm' habs
      have e' := encodeMate_of_pos m' hm'
      omega
    · intro h _ _; omega
    · intro c hc
      exact ⟨fun _ => by omega, by omega⟩

/-- Witness for C2 (amended): evaluation at `m = 2`, `m' = 5`, `c = 9000`. -/
theorem encodeMate_props_witness :
    0 < encodeMate 2 ∧
    (encodeMate 5).natAbs < (encodeMate 2).natAbs ∧
    9000 < (encodeMate 2).natAbs ∧
    (9000 : Int) < encodeMate 2 := by
  have h := encodeMate_props 2 5 (by decide) (by decide) (by decide) (by decide)
  exact ⟨h.1 (by decide), h.2.2.1 (by decide) (by decide) (by decide),
    h.2.2.2.2.1, (h.2.2.2.2.2 9000 (by decide)).1 (by decide)⟩

/-- Embeds the configuration held by the `Humanizer` class
(src/humanizer.py, lines 13-33), with the source's default values.
Times are rationals (seconds). -/
structure Humanizer where
  target_elo_advantage : Int := 300
  elo_std_dev : Int := 100
  obvious_move_threshold : Int := 300
  min_move_time : ℚ := 1/2
  max_move_time : ℚ := 2
deriving DecidableEq, Repr

/-- Embeds `Humanizer._sample_cp_setpoint` (src/humanizer.py, lines 35-45).
The raw draw `raw` models the integer `int(np.random.normal(
target_elo_advantage, elo_std_dev))`; the distribution itself is outside
the embedding, so the draw is an explicit argument.  The source then
clamps the draw at zero with `max(cp_setpoint, 0)`. -/
def Humanizer.sample_cp_setpoint (hz : Humanizer) (raw : Int) : Int :=
  max raw 0

/-- Embeds `Humanizer._is_obvious_move` (src/humanizer.py, lines 47-71):
fewer than two candidates is obvious; a best-to-second gap strictly above
the threshold is obvious; a second-best strictly below the negated
threshold is obvious; anything else is not. -/
def Humanizer.is_obvious_move (hz : Humanizer) (evaluations : List MoveEvaluation) : Bool :=
  match evaluations with
  | [] => true
  | [_] => true
  | best :: second :: _ =>
    if hz.obvious_move_threshold < best.score - second.score then true
    else if second.score < -hz.obvious_move_threshold then true
    else false

/-- Which of the sequential `return` statements of
`Humanizer._is_obvious_move` fires. -/
inductive ObviousReason where
  | fewCandidates
  | gapRule
  | blunderRule
  | notObvious
deriving DecidableEq, Repr

/-- Control-flow instrumentation of `Humanizer._is_obvious_move`: the same
sequential checks as the source, recording which `return True` executes
(the length check at line 57, the gap check at line 64, then the
blunder-avoidance check at line 68). -/
def Humanizer.is_obvious_reason (hz : Humanizer) (evaluations : List MoveEvaluation) :
    ObviousReason :=
  match evaluations with
  | [] => .fewCandidates
  | [_] => .fewCandidates
  | best :: second :: _ =>
    if hz.obvious_move_threshold < best.score - second.score then .gapRule
    else if second.score < -hz.obvious_move_threshold then .blunderRule
    else .notObvious

/-- The boolean classifier agrees with its control-flow instrumentation. -/
lemma is_obvious_move_eq_reason (hz : Humanizer) (evaluations : List MoveEvaluation) :
    hz.is_obvious_move evaluations =
      decide (hz.is_obvious_reason evaluations ≠ .notObvious) := by
  match evaluations with
  | [] => rfl
  | [_] => rfl
  | best :: second :: rest =>
    by_cases h1 : hz.obvious_move_threshold < best.score - second.score
    · simp [Humanizer.is_obvious_move, Humanizer.is_obvious_reason, h1]
    · by_cases h2 : second.score < -hz.obvious_move_threshold <;>
        simp [Humanizer.is_obvious_move, Humanizer.is_obvious_reason, h1, h2]

/-- Embeds the acceptable-subset construction inside `Humanizer.select_move`
(src/humanizer.py, lines 97-109): `best_score` is the score of the first
candidate, and a candidate is kept when its score reaches the setpoint or
its drop from the best is strictly below `elo_std_dev`. -/
def Humanizer.acceptable_moves (hz : Humanizer) (cp_setpoint : Int)
    (evaluations : List MoveEvaluation) : List MoveEvaluation :=
  match evaluations with
  | [] => []
  | best :: rest =>
    (best :: rest).filter
      (fun e => decide (cp_setpoint ≤ e.score ∨ best.score - e.score < hz.elo_std_dev))

/-- Embeds `Humanizer.select_move` (src/humanizer.py, lines 73-131).
`raw_setpoint` is the normal draw consumed by `_sample_cp_setpoint` and
`choice` models the index drawn by `np.random.choice(len(acceptable_moves),
p=probabilities)`: that call always yields an index in
`[0, len(acceptable_moves))`, rendered here as `choice % length`. -/
def Humanizer.select_move (hz : Humanizer) (evaluations : List MoveEvaluation)
    (raw_setpoint : Int) (choice : Nat) : Option Move :=
  match evaluations with
  | [] => none
  | best :: rest =>
    if hz.is_obvious_move (best :: rest) then some best.move
    else
      let cp_setpoint := hz.sample_cp_setpoint raw_setpoint
      match hz.acceptable_moves cp_setpoint (best :: rest) with
      | [] => some best.move
      | a :: acc =>
        some (((a :: acc).getD (choice % (a :: acc).length) a).move)

/-- Embeds `Humanizer.should_move` (src/humanizer.py, lines 138-152):
an empty evaluation list yields `(False, None)`, otherwise the pair of
`move is not None` and the selected move. -/
def Humanizer.should_move (hz : Humanizer) (evaluations : List MoveEvaluation)
    (raw_setpoint : Int) (choice : Nat) : Bool × Option Move :=
  if evaluations.isEmpty then (false, none)
  else
    let move := hz.select_move evaluations raw_setpoint choice
    (move.isSome, move)

/-- Embeds Python's `random.uniform(a, b) = a + (b - a) * random()`, with the
unit draw `t` of `random.random()` as an explicit argument. -/
def uniform (a b t : ℚ) : ℚ :=
  a + (b - a) * t

/-- The observable behaviour of a timing call: the argument passed to
`time.sleep`, if any, and the value returned to the caller, if any. -/
structure DelayEffect where
  slept : Option ℚ
  returned : Option ℚ
deriving DecidableEq, Repr

/-- Embeds `Humanizer.add_realistic_delay` (src/humanizer.py, lines
133-136): it draws `delay = random.uniform(min_move_time, max_move_time)`,
calls `time.sleep(delay)`, and returns `None`.  `t` is the unit draw of
`random.uniform`. -/
def Humanizer.add_realistic_delay (hz : Humanizer) (t : ℚ) : DelayEffect :=
  let delay := uniform hz.min_move_time hz.max_move_time t
  { slept := some delay, returned := none }

/-- A sample move used in concrete evaluations. -/
def mvA : Move := ⟨"e2e4"⟩

/-- A second sample move used in concrete evaluations. -/
def mvB : Move := ⟨"d2d4"⟩

/-- The candidate list `[100, -500]` of the spec's blunder-avoidance
example. -/
def blunderExample : List MoveEvaluation :=
  [{ move := mvA, score := 100 }, { move := mvB, score := -500 }]

/-- Claim C3 (amended): the classifier returns true iff the list has fewer
than two candidates, or the best-to-second gap strictly exceeds the
threshold, or the second-best is strictly below the negated threshold —
checked in order on the top two entries only; on `[100, -500]` with
threshold 300 it returns true, but via the decisive-gap branch (the gap is
600 > 300), not the blunder-avoidance branch. -/
theorem is_obvious_move_spec (hz : Humanizer) (evaluations : List MoveEvaluation) :
    (hz.is_obvious_move evaluations = true ↔
      evaluations.length < 2 ∨
      ∃ best second rest, evaluations = best :: second :: rest ∧
        (hz.obvious_move_threshold < best.score - second.score ∨
         second.score < -hz.obvious_move_threshold)) ∧
    ({ obvious_move_threshold := 300 : Humanizer }.is_obvious_move blunderExample = true ∧
     { obvious_move_threshold := 300 : Humanizer }.is_obvious_reason blunderExample =
       .gapRule) := by
  refine ⟨?_, by decide, by decide⟩
  match evaluations with
  | [] => simp [Humanizer.is_obvious_move]
  | [e] => simp [Humanizer.is_obvious_move]
  | best :: second :: rest =>
    by_cases h1 : hz.obvious_move_threshold < best.score - second.score
    · constructor
      · intro _
        exact Or.inr ⟨best, second, rest, rfl, Or.inl h1⟩
      · intro _
        simp [Humanizer.is_obvious_move, h1]
    · by_cases h2 : second.score < -hz.obvious_move_threshold
      · constructor
        · intro _
          exact Or.inr ⟨best, second, rest, rfl, Or.inr h2⟩
        · intro _
          simp [Humanizer.is_obvious_move, h1, h2]
      · constructor
        · intro h
          simp [Humanizer.is_obvious_move, h1, h2] at h
        · intro h
          rcases h with h | ⟨b, s, r, heq, hcase⟩
          · exact absurd h (by simp)
          · cases heq
            rcases hcase with h | h
            · exact absurd h h1
            · exact absurd h h2

/-- Counterexample for C3 as stated: on `[100, -500]` with threshold 300
the first branch taken is the decisive-gap rule (the gap `100 - (-500) =
600` exceeds the threshold), not the blunder-avoidance rule the claim
names. -/
theorem is_obvious_blunder_example_uses_gap_rule :
    { obvious_move_threshold := 300 : Humanizer }.is_obvious_reason blunderExample =
      .gapRule ∧
    { obvious_move_threshold := 300 : Humanizer }.is_obvious_reason blunderExample ≠
      .blunderRule := by
  decide

/-- Claim C4: the setpoint is the raw normal draw clamped to be
non-negative (left unchanged when already non-negative), and a candidate
is in the acceptable subset iff it is in the candidate list and its score
reaches the setpoint or its drop from the best candidate's score is
strictly below `elo_std_dev`. -/
theorem acceptable_moves_spec (hz : Humanizer) (raw : Int)
    (best : MoveEvaluation) (rest : List MoveEvaluation) (c : MoveEvaluation) :
    0 ≤ hz.sample_cp_setpoint raw ∧
    (0 ≤ raw → hz.sample_cp_setpoint raw = raw) ∧
    (c ∈ hz.acceptable_moves (hz.sample_cp_setpoint raw) (best :: rest) ↔
      c ∈ best :: rest ∧
        (hz.sample_cp_setpoint raw ≤ c.score ∨
         best.score - c.score < hz.elo_std_dev)) := by
  refine ⟨le_max_right _ _, fun h => max_eq_left h, ?_⟩
  simp [Humanizer.acceptable_moves, List.mem_filter]

/-- Witness for C4: at raw draw `-7`, the setpoint is `0` and the candidate
of score `-20` with best score `30` is acceptable for the default
configuration (drop `50 < 100`). -/
theorem acceptable_moves_spec_witness :
    (0 : Int) ≤ ({} : Humanizer).sample_cp_setpoint (-7) ∧
    { move := mvB, score := -20 : MoveEvaluation } ∈
      ({} : Humanizer).acceptable_moves (({} : Humanizer).sample_cp_setpoint (-7))
        [{ move := mvA, score := 30 }, { move := mvB, score := -20 }] := by
  have h := acceptable_moves_spec ({} : Humanizer) (-7)
    { move := mvA, score := 30 } [{ move := mvB, score := -20 }]
    { move := mvB, score := -20 }
  exact ⟨h.1, h.2.2.mpr (by decide)⟩

/-- Counterexample for C6 as stated: with the configuration
`elo_std_dev = 0` and a sampled setpoint of `1`, the singleton candidate
list whose best has score `0` produces an empty acceptable subset — the
best candidate is not in it. -/
theorem acceptable_moves_can_miss_best :
    { elo_std_dev := 0 : Humanizer }.acceptable_moves
      ({ elo_std_dev := 0 : Humanizer }.sample_cp_setpoint 1)
      [{ move := mvA, score := 0 }] = [] := by
  decide

/-- Claim C6 (amended): the acceptable subset contains the best (first)
candidate whenever `elo_std_dev` is positive or the best candidate's score
reaches the sampled setpoint; the degenerate configuration
`elo_std_dev ≤ 0` with `best.score < s` is the only exception. -/
theorem acceptable_moves_contains_best (hz : Humanizer) (s : Int)
    (best : MoveEvaluation) (rest : List MoveEvaluation)
    (h : 0 < hz.elo_std_dev ∨ s ≤ best.score) :
    best ∈ hz.acceptable_moves s (best :: rest) := by
  simp only [Humanizer.acceptable_moves, List.mem_filter, decide_eq_true_eq]
  constructor
  · exact List.mem_cons_self best rest
  · rcases h with h | h
    · exact Or.inr (by omega)
    · exact Or.inl h

/-- Witness for C6 (amended): with the default configuration and setpoint
`400`, the best candidate of score `50` is in the acceptable subset. -/
theorem acceptable_moves_contains_best_witness :
    { move := mvA, score := 50 : MoveEvaluation } ∈
      ({} : Humanizer).acceptable_moves 400
        [{ move := mvA, score := 50 }, { move := mvB, score := 40 }] :=
  acceptable_moves_contains_best ({} : Humanizer) 400
    { move := mvA, score := 50 } [{ move := mvB, score := 40 }]
    (Or.inl (by decide))

lemma getD_mem_of_lt {α : Type} (l : List α) (n : Nat) (d : α) (h : n < l.length) :
    l.getD n d ∈ l := by
  rw [List.getD_eq_getElem l d h]
  exact List.getElem_mem h

lemma mem_of_mem_acceptable (hz : Humanizer) (s : Int) (evals : List MoveEvaluation)
    (e : MoveEvaluation) (h : e ∈ hz.acceptable_moves s evals) : e ∈ evals := by
  match evals with
  | [] => simpa [Humanizer.acceptable_moves] using h
  | best :: rest =>
    simp only [Humanizer.acceptable_moves] at h
    exact (List.mem_filter.mp h).1

/-- Core fact about `Humanizer.select_move` on a non-empty list: it returns
`some` move taken from the input list, through whichever of the three
branches applies. -/
lemma select_move_spec_aux (hz : Humanizer) (best : MoveEvaluation)
    (rest : List MoveEvaluation) (raw : Int) (choice : Nat) :
    ∃ m, hz.select_move (best :: rest) raw choice = some m ∧
      m ∈ (best :: rest).map MoveEvaluation.move := by
  by_cases hobv : hz.is_obvious_move (best :: rest) = true
  · refine ⟨best.move, ?_, ?_⟩
    · simp [Humanizer.select_move, hobv]
    · exact List.mem_map_of_mem _ (List.mem_cons_self best rest)
  · rcases heq : hz.acceptable_moves (hz.sample_cp_setpoint raw) (best :: rest)
      with _ | ⟨a, acc⟩
    · refine ⟨best.move, ?_, ?_⟩
      · simp [Humanizer.select_move, hobv, heq]
      · exact List.mem_map_of_mem _ (List.mem_cons_self best rest)
    · have hlt : choice % (a :: acc).length < (a :: acc).length :=
        Nat.mod_lt _ (Nat.succ_pos _)
      have hmem : (a :: acc).getD (choice % (a :: acc).length) a ∈ a :: acc :=
        getD_mem_of_lt _ _ _ hlt
      have hmem' : (a :: acc).getD (choice % (a :: acc).length) a ∈ best :: rest :=
        mem_of_mem_acceptable hz (hz.sample_cp_setpoint raw) (best :: rest) _
          (heq ▸ hmem)
      refine ⟨((a :: acc).getD (choice % (a :: acc).length) a).move, ?_, ?_⟩
      · simp [Humanizer.select_move, hobv, heq]
      · exact List.mem_map_of_mem _ hmem'

/-- Claim C10: on every non-empty evaluation list, `select_move` returns
`some` move belonging to the input list — via the obvious branch, the
acceptable-subset draw, or the empty-subset fallback — and `should_move`
then returns exactly `(true, some m)` for that move; its boolean is true
exactly because the returned move is not `None`. -/
theorem select_move_returns_member (hz : Humanizer) (evaluations : List MoveEvaluation)
    (raw : Int) (choice : Nat) (h : evaluations ≠ []) :
    ∃ m, hz.select_move evaluations raw choice = some m ∧
      m ∈ evaluations.map MoveEvaluation.move ∧
      hz.should_move evaluations raw choice = (true, some m) := by
  match evaluations with
  | [] => exact absurd rfl h
  | best :: rest =>
    obtain ⟨m, hm, hmem⟩ := select_move_spec_aux hz best rest raw choice
    exact ⟨m, hm, hmem, by simp [Humanizer.should_move, hm]⟩

/-- Witness for C10: the singleton list of score 200 yields the move
`e2e4`. -/
theorem select_move_returns_member_witness :
    ∃ m, ({} : Humanizer).select_move [{ move := mvA, score := 200 }] 0 0 = some m ∧
      m ∈ [{ move := mvA, score := 200 : MoveEvaluation }].map MoveEvaluation.move ∧
      ({} : Humanizer).should_move [{ move := mvA, score := 200 }] 0 0 =
        (true, some m) :=
  select_move_returns_member ({} : Humanizer) [{ move := mvA, score := 200 }] 0 0
    (by decide)

/-- Claim C7 (amended): the facade decision call on an empty candidate list
returns `(false, none)` as a non-error "nothing to do" result; on a
non-empty list it returns `(true, m)` where `m` is the selector's choice
(the top candidate when obvious, otherwise the stochastic draw).  No delay
is part of the returned value: the timing call `add_realistic_delay` is a
separate method, invoked afterwards by the game controller, and it returns
nothing. -/
theorem should_move_facade (hz : Humanizer) (evaluations : List MoveEvaluation)
    (raw : Int) (choice : Nat) :
    hz.should_move [] raw choice = (false, none) ∧
    (evaluations ≠ [] →
      (hz.select_move evaluations raw choice).isSome = true ∧
      hz.should_move evaluations raw choice =
        (true, hz.select_move evaluations raw choice)) ∧
    (∀ t : ℚ, (hz.add_realistic_delay t).returned = none) := by
  refine ⟨rfl, ?_, fun _ => rfl⟩
  intro h
  match evaluations with
  | [] => exact absurd rfl h
  | best :: rest =>
    obtain ⟨m, hm, -⟩ := select_move_spec_aux hz best rest raw choice
    constructor
    · simp [hm]
    · simp [Humanizer.should_move, hm]

/-- Witness for C7 (amended): evaluation on the two-candidate list
`[500, 100]`. -/
theorem should_move_facade_witness :
    ({} : Humanizer).should_move [] 0 0 = (false, none) ∧
    ({} : Humanizer).should_move
        [{ move := mvA, score := 500 }, { move := mvB, score := 100 }] 0 0 =
      (true, ({} : Humanizer).select_move
        [{ move := mvA, score := 500 }, { move := mvB, score := 100 }] 0 0) := by
  have h := should_move_facade ({} : Humanizer)
    [{ move := mvA, score := 500 }, { move := mvB, score := 100 }] 0 0
  exact ⟨h.1, (h.2.1 (by decide)).2⟩

/-- Counterexample for C7 as stated: the decision call returns only the
pair `(true, move)` — here `(true, some mvA)` on a concrete non-empty
list — and the timing component returns `none`, so no delay value is ever
part of the decision result. -/
theorem should_move_returns_no_delay :
    ({} : Humanizer).should_move [{ move := mvA, score := 200 }] 0 0 =
      (true, some mvA) ∧
    (({} : Humanizer).add_realistic_delay (1/3)).returned = none := by
  exact ⟨by decide, rfl⟩

/-- Claim C8 (amended): the timing call draws its delay uniformly within
the closed interval `[min_move_time, max_move_time]` — the slept duration
never lies outside those bounds when `min_move_time ≤ max_move_time` —
but it passes that duration to `time.sleep` as a side effect and returns
nothing, rather than returning the sampled value. -/
theorem add_realistic_delay_bounds (hz : Humanizer) (t : ℚ)
    (hab : hz.min_move_time ≤ hz.max_move_time) (h0 : 0 ≤ t) (h1 : t ≤ 1) :
    ∃ d, (hz.add_realistic_delay t).slept = some d ∧
      hz.min_move_time ≤ d ∧ d ≤ hz.max_move_time ∧
      (hz.add_realistic_delay t).returned = none := by
  refine ⟨uniform hz.min_move_time hz.max_move_time t, rfl, ?_, ?_, rfl⟩
  · have hmul : 0 ≤ (hz.max_move_time - hz.min_move_time) * t :=
      mul_nonneg (by linarith) h0
    simp only [uniform]
    linarith
  · have hmul : (hz.max_move_time - hz.min_move_time) * t ≤
        hz.max_move_time - hz.min_move_time :=
      mul_le_of_le_one_right (by linarith) h1
    simp only [uniform]
    linarith

/-- Witness for C8 (amended): the default configuration at unit draw
`1/2`. -/
theorem add_realistic_delay_bounds_witness :
    ∃ d, (({} : Humanizer).add_realistic_delay (1/2)).slept = some d ∧
      ({} : Humanizer).min_move_time ≤ d ∧ d ≤ ({} : Humanizer).max_move_time ∧
      (({} : Humanizer).add_realistic_delay (1/2)).returned = none :=
  add_realistic_delay_bounds ({} : Humanizer) (1/2) (by norm_num) (by norm_num)
    (by norm_num)

/-- Counterexample for C8 as stated: at unit draw `1/2` the timing call
sleeps for `5/4` seconds and returns nothing — it blocks, and no sampled
value is returned to the caller. -/
theorem add_realistic_delay_sleeps :
    (({} : Humanizer).add_realistic_delay (1/2)).slept = some (5/4) ∧
    (({} : Humanizer).add_realistic_delay (1/2)).returned = none := by
  constructor
  · show some (uniform (1/2) 2 (1/2)) = some (5/4)
    norm_num [uniform]
  · rfl

/-- Embeds the per-candidate weight `np.exp(move_eval.score / 200.0)` of
`Humanizer.select_move` (src/humanizer.py, line 121).  The source passes
the raw quotient to `np.exp` directly: there is no clamp on the exponent
and no subtraction of the maximum log-weight. -/
noncomputable def weight_of (e : MoveEvaluation) : ℝ :=
  Real.exp ((e.score : ℝ) / 200)

/-- Embeds the weight list of `Humanizer.select_move` (src/humanizer.py,
lines 117-122). -/
noncomputable def weights_of (l : List MoveEvaluation) : List ℝ :=
  l.map weight_of

/-- Embeds the normalized probabilities of `Humanizer.select_move`
(src/humanizer.py, lines 124-126): each weight divided by the total. -/
noncomputable def probabilities_of (l : List MoveEvaluation) : List ℝ :=
  (weights_of l).map (fun w => w / (weights_of l).sum)

lemma sum_map_div (l : List ℝ) (S : ℝ) :
    (l.map (fun w => w / S)).sum = l.sum / S := by
  induction l with
  | nil => simp
  | cons x xs ih => simp [ih, add_div]

lemma weights_of_sum_pos (l : List MoveEvaluation) (h : l ≠ []) :
    0 < (weights_of l).sum := by
  apply List.sum_pos
  · intro x hx
    obtain ⟨e, -, rfl⟩ := List.mem_map.mp hx
    exact Real.exp_pos _
  · simpa [weights_of] using h

/-- Claim C5 (amended): each acceptable candidate receives weight
`exp(score/200)`, every weight is strictly positive (so every acceptable
move has non-zero selection probability), equal scores yield equal
weights, and the normalized probabilities are positive and sum to 1.  The
source applies `np.exp` to the raw quotient with no clamp and no
max-subtraction; over the reals every weight is finite, and for
mate-encoded scores, whose magnitude stays near 10000, the exponent
magnitude stays near 50, below the IEEE-double overflow threshold — but
no guard exists in the code. -/
theorem softmax_weights_spec (l : List MoveEvaluation) :
    (∀ e : MoveEvaluation, weight_of e = Real.exp ((e.score : ℝ) / 200) ∧ 0 < weight_of e) ∧
    (∀ e e' : MoveEvaluation, e.score = e'.score → weight_of e = weight_of e') ∧
    (l ≠ [] → 0 < (weights_of l).sum ∧ (probabilities_of l).sum = 1) ∧
    (∀ p, p ∈ probabilities_of l → 0 < p) := by
  refine ⟨fun e => ⟨rfl, Real.exp_pos _⟩, ?_, ?_, ?_⟩
  · intro e e' hscore
    simp [weight_of, hscore]
  · intro h
    have hpos := weights_of_sum_pos l h
    refine ⟨hpos, ?_⟩
    rw [probabilities_of, sum_map_div]
    exact div_self (ne_of_gt hpos)
  · intro p hp
    obtain ⟨w, hw, rfl⟩ := List.mem_map.mp hp
    obtain ⟨e, he, rfl⟩ := List.mem_map.mp hw
    have hne : l ≠ [] := List.ne_nil_of_mem he
    exact div_pos (Real.exp_pos _) (weights_of_sum_pos l hne)

/-- Witness for C5 (amended): the two-candidate list `[200, 190]`. -/
theorem softmax_weights_spec_witness :
    0 < weight_of { move := mvA, score := 200 } ∧
    (probabilities_of
      [{ move := mvA, score := 200 }, { move := mvB, score := 190 }]).sum = 1 := by
  have h := softmax_weights_spec
    [{ move := mvA, score := 200 }, { move := mvB, score := 190 }]
  exact ⟨(h.1 _).2, (h.2.2.1 (by decide)).2⟩

/-- Counterexample for C5 as stated: the weight computation is not guarded.
The exponent handed to `exp` is the raw `score / 200`: at score
`142000` it is `710`, strictly beyond `709`, itself beyond the largest
argument for which IEEE-double `np.exp` is finite (about 709.78) — a
clamped exponent could not exceed that bound, and a max-subtracted
softmax would never exponentiate a positive argument for the maximal
candidate.  The source simply maps `np.exp` over the raw quotients. -/
theorem weight_exponent_unclamped :
    weight_of { move := mvA, score := 142000 } = Real.exp 710 ∧
    Real.exp 709 < Real.exp 710 := by
  constructor
  · simp only [weight_of]
    norm_num
  · exact Real.exp_lt_exp.mpr (by norm_num)

/-- One multipv entry of the raw analysis result consumed by
`EngineWrapper.analyze` (src/engine_wrapper.py, lines 117-125): the
principal variation and the optionally present score. -/
structure PvInfo where
  pv : List Move
  score : Option RawScore
deriving DecidableEq, Repr

/-- Stable insertion step for descending order: the new element passes
every earlier element whose score is at least its own. -/
def insert_desc (e : MoveEvaluation) : List MoveEvaluation → List MoveEvaluation
  | [] => [e]
  | x :: xs => if x.score < e.score then e :: x :: xs else x :: insert_desc e xs

/-- Models `evaluations.sort(key=lambda x: x.score, reverse=True)`
(src/engine_wrapper.py, line 137): Python's stable descending sort,
rendered as a stable insertion sort (extensionally the same ordering). -/
def sort_desc (l : List MoveEvaluation) : List MoveEvaluation :=
  l.foldl (fun acc e => insert_desc e acc) []

/-- Embeds `EngineWrapper.analyze` (src/engine_wrapper.py, lines 87-139).
`engineStarted` models `self.engine is not None`, `gameOver` models
`board.is_game_over()`, and `infos` is the multipv analysis result.  The
source raises `RuntimeError` when the engine is not started, returns the
empty list when the game is over, and otherwise normalizes each entry
that has a non-empty pv and a score, then sorts descending. -/
def analyze (engineStarted gameOver turnBlack : Bool) (infos : List PvInfo) :
    Except String (List MoveEvaluation) :=
  if !engineStarted then .error "Engine not started. Call start() first."
  else if gameOver then .ok []
  else
    let evaluations := infos.filterMap (fun pv_info =>
      match pv_info.pv, pv_info.score with
      | [], _ => none
      | _ :: _, none => none
      | m :: _, some s =>
        match score_to_centipawns s turnBlack with
        | (cp, im, mi) => some { move := m, score := cp, is_mate := im, mate_in := mi })
    .ok (sort_desc evaluations)

/-- A concrete raw multipv entry for a playable candidate. -/
def pvEx : PvInfo := { pv := [mvA], score := some (.cp 31) }

/-- Claim C9 (amended): asked to analyze a terminal position (a position
with no legal moves, `board.is_game_over()` true), the entry point
returns an empty evaluation list as a non-error result — it raises no
invalid-input error for terminal positions; the only failure it raises is
the engine-not-started `RuntimeError`. -/
theorem analyze_terminal_returns_empty (turnBlack : Bool) (infos : List PvInfo) :
    analyze true true turnBlack infos = Except.ok [] ∧
    (∀ msg : String, analyze true true turnBlack infos ≠ Except.error msg) ∧
    analyze false true turnBlack infos =
      Except.error "Engine not started. Call start() first." := by
  refine ⟨rfl, ?_, rfl⟩
  intro msg h
  simp [analyze] at h

/-- Witness for C9 (amended): concrete evaluation on the raw entry
`pvEx`. -/
theorem analyze_terminal_returns_empty_witness :
    analyze true true false [pvEx] = Except.ok [] ∧
    analyze true true false [pvEx] ≠ Except.error "terminal position" :=
  ⟨(analyze_terminal_returns_empty false [pvEx]).1,
   (analyze_terminal_returns_empty false [pvEx]).2.1 "terminal position"⟩

/-- Counterexample for C9 as stated: on a terminal position with a
candidate entry available, the entry point yields `Except.ok []` — it
silently reports "nothing to do" instead of failing with an
invalid-input error. -/
theorem analyze_terminal_not_an_error :
    analyze true true false [pvEx] = Except.ok [] := rfl

end ChessBot
